import Mathlib

/-!
# Verification of the unbabel_cli streaming aggregation pipeline

Shallow embedding of `src/unbabel_cli.py`: the `streamer` generator, the
`publisher` (Forwarder) staleness filter, the `handler` (Aggregator) cycle
with its drift-corrected schedule, and the hand-off queue constructed in
`main`.  Wall-clock instants, event timestamps and durations are modelled
as rationals (seconds since the epoch); a text chunk is a `List Char`; the
standard-library JSON parse `json.loads` is an abstract parameter
`parse : List Char → Option Record` (`none` models a raised exception).
-/

set_option autoImplicit false

namespace UnbabelCli

/-- Result of `x.get("timestamp")` followed by `strptime`: the key may be
absent (`dt is None`), present but unparseable (`strptime` raises), or a
valid instant. -/
inductive TSField where
  | absent : TSField
  | malformed : TSField
  | valid : ℚ → TSField
  deriving DecidableEq, Repr

/-- One parsed input line: a JSON object with an optional `timestamp` key
and an optional numeric `duration` key. -/
structure Record where
  timestamp : TSField
  duration : Option ℚ
  deriving DecidableEq, Repr

/-- One aggregation result as built on lines 138-143 of `unbabel_cli.py`:
`date` is the cycle clock reading `now`, `average_delivery_time` is the
computed mean or null. -/
structure AggResult where
  date : ℚ
  average_delivery_time : Option ℚ
  deriving DecidableEq, Repr

/-! ## Tailer: `streamer` (lines 24-52)

The generator accumulates `readline` results into `new_line` and, when a
chunk ends in a newline, evaluates `json.loads(new_line)` and yields the
result.  Python generator semantics: an exception raised by the generator
body (here a parse failure in `json.loads`) propagates to the caller and
permanently finishes the generator — every later `next` raises
`StopIteration`.  `streamer parse chunks buf` returns the full list of
records the generator ever yields, given the successive non-empty
`readline` results `chunks` and the current accumulation buffer `buf`. -/

def newlineChar : Char := Char.ofNat 10

/-- Embedding of the Python test `line.endswith(chr(10))` on a text chunk. -/
def endsInNewline (chunk : List Char) : Bool := chunk.getLast? == some newlineChar

def streamer (parse : List Char → Option Record) :
    List (List Char) → List Char → List Record
  | [], _ => []
  | chunk :: rest, buf =>
    let buf2 := buf ++ chunk
    if endsInNewline chunk then
      match parse buf2 with
      | none => []
      | some r => r :: streamer parse rest []
    else
      streamer parse rest buf2

/-- The records produced from a fresh `streamer` (empty initial buffer). -/
def streamerOut (parse : List Char → Option Record) (chunks : List (List Char)) :
    List Record :=
  streamer parse chunks []

/-! ## Forwarder: `publisher` (lines 54-85)

Per record: `dt = l.get("timestamp")`; the record is put on the queue iff
`dt is not None and now - strptime(dt).timestamp() < window`.  When `dt`
is present but unparseable, `strptime` raises, the exception is caught on
line 84, and the record is dropped. -/

def publisherKeeps (now window : ℚ) (r : Record) : Bool :=
  match r.timestamp with
  | TSField.valid t => decide (now - t < window)
  | _ => false

/-! ## Aggregator: `handler` (lines 87-148) -/

/-- Age of one buffered record at the cycle clock, as computed by
`now - strptime(x.get("timestamp")).timestamp()` on lines 130-131;
`none` models the exception raised when the key is absent
(`strptime(None, ...)` is a `TypeError`) or the text is unparseable. -/
def recordAge (now : ℚ) (r : Record) : Option ℚ :=
  match r.timestamp with
  | TSField.valid t => some (now - t)
  | _ => none

/-- The membership test of the list comprehension on lines 130-131: the
age of the record at this cycle clock `now` is strictly below `window`. -/
def inWindow (now window : ℚ) (x : Record) : Bool :=
  match recordAge now x with
  | some a => decide (a < window)
  | none => false

/-- The window re-filter on lines 130-131: keep the buffered records whose
age at this cycle clock `now` is strictly below `window`.  The whole list
comprehension raises (result `none`) when any buffered record lacks a
parseable timestamp; the partial result is then discarded and the
`messages` variable keeps its previous value. -/
def filterWindow (now window : ℚ) (ms : List Record) : Option (List Record) :=
  if ms.all (fun x => (recordAge now x).isSome) then
    some (ms.filter (inWindow now window))
  else
    none

/-- Lines 132-137: extract the present `duration` values of the kept
records and take `sum / len`, or `None` when no durations were found. -/
def cycleAverage (kept : List Record) : Option ℚ :=
  let durations := kept.filterMap Record.duration
  if durations.length > 0 then
    some (durations.sum / durations.length)
  else
    none

/-- One pass of the `handler` loop body (lines 122-146) after the drain:
`buffer` is the `messages` list carried from the previous cycle, `drained`
the records popped from `pub_queue` this cycle, `now` the clock reading of
line 123.  Returns the new `messages` list and the emitted result
(`none` models the exception path: nothing is put on `write_queue` and
`messages` stays at its post-drain value). -/
def handlerCycle (window now : ℚ) (buffer drained : List Record) :
    List Record × Option AggResult :=
  match filterWindow now window (buffer ++ drained) with
  | none => (buffer ++ drained, none)
  | some kept => (kept, some ⟨now, cycleAverage kept⟩)

/-- Run the handler over a list of cycles, each given as the pair of its
clock reading `now` and the records drained from the queue that cycle;
collects the per-cycle emissions in order. -/
def handlerRun (window : ℚ) (buffer : List Record) :
    List (ℚ × List Record) → List (Option AggResult)
  | [] => []
  | (now, drained) :: rest =>
    let out := handlerCycle window now buffer drained
    out.2 :: handlerRun window out.1 rest

/-! ## Aggregator schedule (lines 110-114 and 148) -/

/-- Lines 110-114: the initial `next_time` is `now + delay`; when
`delay >= 60` the seconds and microseconds are zeroed, i.e. the instant is
truncated down to its minute boundary. -/
def initialNextTime (startTime delay : ℚ) : ℚ :=
  if 60 ≤ delay then 60 * ⌊(startTime + delay) / 60⌋ else startTime + delay

/-- Line 148: `next_time += (time.time() - next_time) // delay * delay + delay`,
with `now` the fresh clock reading `time.time()` and Python `//` the floor
division. -/
def nextTimeUpdate (delay wake now : ℚ) : ℚ :=
  wake + ⌊(now - wake) / delay⌋ * delay + delay

/-- The sequence of scheduled wake instants: `wakeSeq delay w0 clock n` is
the value of `next_time` before cycle `n`, where `clock n` is the
`time.time()` reading taken on line 148 at the end of cycle `n`. -/
def wakeSeq (delay w0 : ℚ) (clock : ℕ → ℚ) : ℕ → ℚ
  | 0 => w0
  | n + 1 => nextTimeUpdate delay (wakeSeq delay w0 clock n) (clock n)

/-! ## Hand-off queue: `main` (lines 191-192) and `queue.Queue` semantics

`main` constructs `pub_queue = queue.Queue()`: the default `maxsize` is 0
and a `queue.Queue` with `maxsize <= 0` is infinite.  `full()` is
`0 < maxsize <= qsize()`, and a `put` proceeds immediately whenever the
queue is not full. -/

def mainPubQueueMaxsize : ℕ := 0

def queueFull (maxsize size : ℕ) : Bool := decide (0 < maxsize) && decide (maxsize ≤ size)

def putSucceedsImmediately (maxsize size : ℕ) : Bool := !queueFull maxsize size

/-- Queue size after `n` attempted puts on an initially empty queue, when
no consumer runs: a put that finds the queue not full inserts one item. -/
def sizeAfterPuts (maxsize : ℕ) : ℕ → ℕ
  | 0 => 0
  | n + 1 =>
    let s := sizeAfterPuts maxsize n
    if putSucceedsImmediately maxsize s then s + 1 else s

/-! ## Concrete instances used to evaluate the definitions -/

/-- A concrete parse function standing in for `json.loads` on two sample
lines: the line `ok` (newline-terminated) parses to a record, anything
else raises.  `json.loads` does fail on malformed text, for example the
unfinished object of the unit test `StreamerWorks`. -/
def demoParse (s : List Char) : Option Record :=
  if s = ['o', 'k', newlineChar] then some ⟨TSField.valid 0, some 1⟩ else none

/-- The three events of the known-values scenario (see the unit test
`MainWorks.test_known_values`): durations 20, 31, 54 at instants
`t0 - 2`, `t0 - 1`, `t0` with `t0 = 100`. -/
def scenarioEvents : List Record :=
  [⟨TSField.valid 98, some 20⟩, ⟨TSField.valid 99, some 31⟩,
   ⟨TSField.valid 100, some 54⟩]

/-! ## Basic lemmas about the aggregation cycle -/

lemma filterWindow_eq_some {now window : ℚ} {ms kept : List Record}
    (h : filterWindow now window ms = some kept) :
    kept = ms.filter (inWindow now window) := by
  unfold filterWindow at h
  split at h
  · exact (Option.some.inj h).symm
  · simp at h

lemma handlerCycle_of_filter_some {window now : ℚ} {buffer drained kept : List Record}
    (hf : filterWindow now window (buffer ++ drained) = some kept) :
    handlerCycle window now buffer drained = (kept, some ⟨now, cycleAverage kept⟩) := by
  unfold handlerCycle
  rw [hf]

lemma handlerCycle_of_filter_none {window now : ℚ} {buffer drained : List Record}
    (hf : filterWindow now window (buffer ++ drained) = none) :
    handlerCycle window now buffer drained = (buffer ++ drained, none) := by
  unfold handlerCycle
  rw [hf]

lemma inWindow_iff {now window : ℚ} {x : Record} :
    inWindow now window x = true ↔
      ∃ t : ℚ, x.timestamp = TSField.valid t ∧ now - t < window := by
  unfold inWindow recordAge
  cases hts : x.timestamp with
  | absent => simp
  | malformed => simp
  | valid t =>
    simp only [decide_eq_true_eq]
    constructor
    · intro h
      exact ⟨t, rfl, h⟩
    · rintro ⟨u, hu, h⟩
      cases hu
      exact h

lemma mem_of_filterWindow {now window : ℚ} {ms kept : List Record}
    (h : filterWindow now window ms = some kept) {x : Record} (hx : x ∈ kept) :
    x ∈ ms ∧ ∃ t : ℚ, x.timestamp = TSField.valid t ∧ now - t < window := by
  rw [filterWindow_eq_some h, List.mem_filter] at hx
  exact ⟨hx.1, inWindow_iff.mp hx.2⟩

lemma filterWindow_of_valid {now window : ℚ} {ms : List Record}
    (h : ∀ x ∈ ms, ∃ t : ℚ, x.timestamp = TSField.valid t) :
    filterWindow now window ms = some (ms.filter (inWindow now window)) := by
  have hall : ms.all (fun x => (recordAge now x).isSome) = true := by
    rw [List.all_eq_true]
    intro x hx
    obtain ⟨t, ht⟩ := h x hx
    simp [recordAge, ht]
  simp [filterWindow, hall]

/-! ## C1: windowing invariant at aggregation time -/

/-- C1.  Whenever a cycle emits a result, every record surviving the
re-filter (the set from which the averaged durations are drawn) has a
valid timestamp whose age at the aggregation clock `now` is strictly
below `window`; and a buffered record whose age is `window` or more —
in particular exactly `window` — is excluded from that set.  The clock
`now` is the reading taken at the start of this very cycle, independent
of when the Forwarder admitted the record. -/
theorem windowing_invariant (window now : ℚ) (buffer drained : List Record)
    (res : AggResult)
    (h : (handlerCycle window now buffer drained).2 = some res) :
    (∀ x ∈ (handlerCycle window now buffer drained).1,
        ∃ t : ℚ, x.timestamp = TSField.valid t ∧ now - t < window) ∧
    (∀ x ∈ buffer ++ drained, ∀ t : ℚ, x.timestamp = TSField.valid t →
        window ≤ now - t → x ∉ (handlerCycle window now buffer drained).1) := by
  cases hf : filterWindow now window (buffer ++ drained) with
  | none =>
    rw [handlerCycle_of_filter_none hf] at h
    simp at h
  | some kept =>
    rw [handlerCycle_of_filter_some hf]
    constructor
    · intro x hx
      exact (mem_of_filterWindow hf hx).2
    · intro x _ t hts hage hx
      obtain ⟨u, hu, hlt⟩ := (mem_of_filterWindow hf hx).2
      rw [hts] at hu
      cases hu
      exact absurd hlt (not_lt.mpr hage)

/-- Witness for C1 at a concrete cycle: window 4, clock 101, one event
with timestamp 100 and duration 54; the cycle emits average 54 and the
invariant holds for it. -/
theorem windowing_invariant_witness :
    (handlerCycle 4 101 [] [⟨TSField.valid 100, some 54⟩]).2
        = some ⟨101, some 54⟩ ∧
    (∀ x ∈ (handlerCycle 4 101 [] [⟨TSField.valid 100, some 54⟩]).1,
        ∃ t : ℚ, x.timestamp = TSField.valid t ∧ 101 - t < 4) := by
  have hemit : (handlerCycle 4 101 [] [⟨TSField.valid 100, some 54⟩]).2
      = some ⟨101, some 54⟩ := by
    have hf : filterWindow 101 4 ([] ++ [(⟨TSField.valid 100, some 54⟩ : Record)])
        = some [⟨TSField.valid 100, some 54⟩] := by
      unfold filterWindow inWindow recordAge
      norm_num
    rw [handlerCycle_of_filter_some hf]
    unfold cycleAverage
    norm_num [List.filterMap_cons]
  exact ⟨hemit,
    (windowing_invariant 4 101 [] [⟨TSField.valid 100, some 54⟩] ⟨101, some 54⟩ hemit).1⟩

/-! ## C3: records without a timestamp key -/

/-- C3 counterexample: a record whose `timestamp` key is absent is NOT
put on the hand-off queue.  The guard on line 81 is
`dt is not None and now - strptime(dt).timestamp() < window`; when `dt`
is `None` the conjunction is false and the `put` on line 83 is skipped,
so the record is dropped — not forwarded unconditionally. -/
theorem missing_timestamp_dropped_cex :
    publisherKeeps 100 4 ⟨TSField.absent, some 20⟩ = false := rfl

/-- C3 amended: every record whose `timestamp` key is absent is dropped
by the Forwarder (never placed on the hand-off queue), whatever the
clock reading and window are. -/
theorem missing_timestamp_dropped (now window : ℚ) (r : Record)
    (h : r.timestamp = TSField.absent) : publisherKeeps now window r = false := by
  unfold publisherKeeps
  rw [h]

/-- Witness for the amended C3 at a concrete record and clock. -/
theorem missing_timestamp_dropped_witness :
    (⟨TSField.absent, some 20⟩ : Record).timestamp = TSField.absent ∧
    publisherKeeps 50 1 ⟨TSField.absent, some 20⟩ = false :=
  ⟨rfl, missing_timestamp_dropped 50 1 ⟨TSField.absent, some 20⟩ rfl⟩

/-! ## C6: the hand-off queue is unbounded -/

lemma sizeAfterPuts_unbounded (n : ℕ) : sizeAfterPuts 0 n = n := by
  induction n with
  | zero => rfl
  | succ n ih =>
    unfold sizeAfterPuts
    simp [putSucceedsImmediately, queueFull, ih]

/-- C6 counterexample: `main` constructs `pub_queue = queue.Queue()`
(line 191), whose default `maxsize` 0 means an infinite queue; with no
consumer running, `n` puts always succeed and leave `n` items, so no
fixed finite capacity bounds the queue size. -/
theorem handoff_queue_unbounded_cex :
    ¬ ∃ capacity : ℕ, ∀ n : ℕ, sizeAfterPuts mainPubQueueMaxsize n ≤ capacity := by
  rintro ⟨c, hc⟩
  have h := hc (c + 1)
  rw [show mainPubQueueMaxsize = 0 from rfl, sizeAfterPuts_unbounded] at h
  omega

/-- C6 amended: the hand-off queue created in `main` is unbounded — every
put succeeds immediately (the queue is never full, so the 30-second put
timeout of the `publisher` never comes into play) and after `n` puts the
queue holds `n` items, exceeding any fixed capacity. -/
theorem handoff_queue_unbounded (n : ℕ) :
    sizeAfterPuts mainPubQueueMaxsize n = n ∧
    putSucceedsImmediately mainPubQueueMaxsize n = true := by
  constructor
  · exact sizeAfterPuts_unbounded n
  · simp [putSucceedsImmediately, queueFull, mainPubQueueMaxsize]

/-! ## C9: records without a duration are excluded from the mean -/

/-- C9.  A record with an in-window valid timestamp but no `duration`
key changes neither the sum nor the count of the emitted mean: adding it
to the drained batch leaves the emitted `average_delivery_time`
unchanged (line 132 keeps only records whose `duration` is present, so a
missing duration is excluded rather than counted as zero). -/
theorem missing_duration_excluded (window now : ℚ) (buffer drained : List Record)
    (r : Record) (t : ℚ) (hts : r.timestamp = TSField.valid t) (hin : now - t < window)
    (hdur : r.duration = none) :
    (handlerCycle window now buffer (drained ++ [r])).2.map AggResult.average_delivery_time
      = (handlerCycle window now buffer drained).2.map AggResult.average_delivery_time := by
  have hassoc : buffer ++ (drained ++ [r]) = (buffer ++ drained) ++ [r] :=
    (List.append_assoc buffer drained [r]).symm
  have hager : recordAge now r = some (now - t) := by simp [recordAge, hts]
  by_cases hall : ((buffer ++ drained).all fun x => (recordAge now x).isSome) = true
  · have hall2 : (((buffer ++ drained) ++ [r]).all fun x => (recordAge now x).isSome) = true := by
      rw [List.all_append, hall]
      simp only [List.all_cons, List.all_nil, hager, Option.isSome_some, Bool.and_true,
        Bool.true_and]
    have hpr : inWindow now window r = true := inWindow_iff.mpr ⟨t, hts, hin⟩
    have hfr : List.filter (inWindow now window) [r] = [r] := by
      simp only [List.filter_cons, List.filter_nil, hpr, if_true]
    have hf1 : filterWindow now window (buffer ++ drained)
        = some ((buffer ++ drained).filter (inWindow now window)) := by
      unfold filterWindow
      rw [if_pos hall]
    have hf2 : filterWindow now window (buffer ++ (drained ++ [r]))
        = some ((buffer ++ drained).filter (inWindow now window) ++ [r]) := by
      rw [hassoc]
      unfold filterWindow
      rw [if_pos hall2, List.filter_append, hfr]
    rw [handlerCycle_of_filter_some hf2, handlerCycle_of_filter_some hf1]
    have havg : cycleAverage ((buffer ++ drained).filter (inWindow now window) ++ [r])
        = cycleAverage ((buffer ++ drained).filter (inWindow now window)) := by
      unfold cycleAverage
      rw [List.filterMap_append,
        show List.filterMap Record.duration [r] = [] by
          simp only [List.filterMap_cons, hdur, List.filterMap_nil],
        List.append_nil]
    rw [havg]
  · have hallf : ((buffer ++ drained).all fun x => (recordAge now x).isSome) = false :=
      Bool.eq_false_iff.mpr hall
    have hall2 : ¬ (((buffer ++ drained) ++ [r]).all fun x => (recordAge now x).isSome) = true := by
      rw [List.all_append, hallf, Bool.false_and]
      exact Bool.false_ne_true
    have hf1 : filterWindow now window (buffer ++ drained) = none := by
      unfold filterWindow
      rw [if_neg hall]
    have hf2 : filterWindow now window (buffer ++ (drained ++ [r])) = none := by
      rw [hassoc]
      unfold filterWindow
      rw [if_neg hall2]
    rw [handlerCycle_of_filter_none hf2, handlerCycle_of_filter_none hf1]

/-- Witness for C9: appending a duration-less in-window record to the
drained batch leaves the emitted average (54) unchanged. -/
theorem missing_duration_excluded_witness :
    (101 : ℚ) - 100 < 4 ∧
    (handlerCycle 4 101 [] ([⟨TSField.valid 100, some 54⟩] ++ [⟨TSField.valid 100, none⟩])).2.map
        AggResult.average_delivery_time
      = (handlerCycle 4 101 [] [⟨TSField.valid 100, some 54⟩]).2.map
        AggResult.average_delivery_time :=
  ⟨by norm_num,
    missing_duration_excluded 4 101 [] [⟨TSField.valid 100, some 54⟩]
      ⟨TSField.valid 100, none⟩ 100 rfl (by norm_num) rfl⟩

/-! ## C10: an empty cycle still emits a null-average result -/

/-- C10.  When every buffered record has a valid timestamp (so the
re-filter completes) and the post-filter sample has no duration values,
the cycle still emits exactly one result, dated at the cycle clock,
with a null `average_delivery_time` (lines 134-144). -/
theorem empty_cycle_emits_null (window now : ℚ) (buffer drained : List Record)
    (hvalid : ∀ x ∈ buffer ++ drained, ∃ t : ℚ, x.timestamp = TSField.valid t)
    (hempty : (handlerCycle window now buffer drained).1.filterMap Record.duration = []) :
    (handlerCycle window now buffer drained).2 = some ⟨now, none⟩ := by
  have hf : filterWindow now window (buffer ++ drained)
      = some ((buffer ++ drained).filter (inWindow now window)) :=
    filterWindow_of_valid hvalid
  rw [handlerCycle_of_filter_some hf] at hempty ⊢
  have hempty2 : ((buffer ++ drained).filter (inWindow now window)).filterMap Record.duration
      = [] := hempty
  have havg : cycleAverage ((buffer ++ drained).filter (inWindow now window)) = none := by
    unfold cycleAverage
    rw [hempty2]
    rfl
  rw [show (((buffer ++ drained).filter (inWindow now window),
      some (⟨now, cycleAverage ((buffer ++ drained).filter (inWindow now window))⟩ : AggResult)).2)
      = some (⟨now, cycleAverage ((buffer ++ drained).filter (inWindow now window))⟩ : AggResult)
      from rfl, havg]

/-- Witness for C10: one buffered record with a valid in-window
timestamp but no duration; the cycle emits a result with a null
average. -/
theorem empty_cycle_emits_null_witness :
    (handlerCycle 4 101 [] [⟨TSField.valid 100, none⟩]).2 = some ⟨101, none⟩ :=
  empty_cycle_emits_null 4 101 [] [⟨TSField.valid 100, none⟩]
    (by
      intro x hx
      simp only [List.nil_append, List.mem_singleton] at hx
      subst hx
      exact ⟨100, rfl⟩)
    (by
      have hvalid : ∀ x ∈ ([] : List Record) ++ [(⟨TSField.valid 100, none⟩ : Record)],
          ∃ t : ℚ, x.timestamp = TSField.valid t := by
        intro x hx
        simp only [List.nil_append, List.mem_singleton] at hx
        subst hx
        exact ⟨100, rfl⟩
      rw [handlerCycle_of_filter_some (filterWindow_of_valid hvalid)]
      cases h : inWindow 101 4 (⟨TSField.valid 100, none⟩ : Record) <;>
        simp [List.filter_cons, h, List.filterMap_cons])

/-! ## C7: the known-values scenario -/

/-- C7.  With window 4 and frequency 1, three events of durations 20, 31
and 54 at instants 98, 99 and 100 (all drained before the first cycle)
produce, over the four cycles clocked at 101, 102, 103 and 104, exactly
the emissions 35, 42.5 (= 85/2), 54 and null, in that order. -/
theorem scenario_known_values :
    (handlerRun 4 [] [(101, scenarioEvents), (102, []), (103, []), (104, [])]).map
        (Option.map AggResult.average_delivery_time)
      = [some (some 35), some (some (85 / 2)), some (some 54), some none] := by
  have hc1 : handlerCycle 4 101 [] scenarioEvents = (scenarioEvents, some ⟨101, some 35⟩) := by
    have hf : filterWindow 101 4 ([] ++ scenarioEvents) = some scenarioEvents := by
      unfold filterWindow
      rw [if_pos (by norm_num [scenarioEvents, List.all_cons, List.all_nil, recordAge])]
      norm_num [scenarioEvents, List.filter_cons, List.filter_nil, inWindow, recordAge]
    rw [handlerCycle_of_filter_some hf]
    norm_num [cycleAverage, scenarioEvents, List.filterMap_cons, List.filterMap_nil]
  have hc2 : handlerCycle 4 102 scenarioEvents []
      = ([⟨TSField.valid 99, some 31⟩, ⟨TSField.valid 100, some 54⟩],
         some ⟨102, some (85 / 2)⟩) := by
    have hf : filterWindow 102 4 (scenarioEvents ++ [])
        = some [⟨TSField.valid 99, some 31⟩, ⟨TSField.valid 100, some 54⟩] := by
      unfold filterWindow
      rw [if_pos (by norm_num [scenarioEvents, List.all_cons, List.all_nil, recordAge])]
      norm_num [scenarioEvents, List.filter_cons, List.filter_nil, inWindow, recordAge]
    rw [handlerCycle_of_filter_some hf]
    norm_num [cycleAverage, List.filterMap_cons, List.filterMap_nil]
  have hc3 : handlerCycle 4 103 [⟨TSField.valid 99, some 31⟩, ⟨TSField.valid 100, some 54⟩] []
      = ([⟨TSField.valid 100, some 54⟩], some ⟨103, some 54⟩) := by
    have hf : filterWindow 103 4
        ([(⟨TSField.valid 99, some 31⟩ : Record), ⟨TSField.valid 100, some 54⟩] ++ [])
        = some [⟨TSField.valid 100, some 54⟩] := by
      unfold filterWindow
      rw [if_pos (by norm_num [List.all_cons, List.all_nil, recordAge])]
      norm_num [List.filter_cons, List.filter_nil, inWindow, recordAge]
    rw [handlerCycle_of_filter_some hf]
    norm_num [cycleAverage, List.filterMap_cons, List.filterMap_nil]
  have hc4 : handlerCycle 4 104 [⟨TSField.valid 100, some 54⟩] []
      = ([], some ⟨104, none⟩) := by
    have hf : filterWindow 104 4 ([(⟨TSField.valid 100, some 54⟩ : Record)] ++ [])
        = some [] := by
      unfold filterWindow
      rw [if_pos (by norm_num [List.all_cons, List.all_nil, recordAge])]
      norm_num [List.filter_cons, List.filter_nil, inWindow, recordAge]
    rw [handlerCycle_of_filter_some hf]
    norm_num [cycleAverage, List.filterMap_nil]
  simp only [handlerRun, hc1, hc2, hc3, hc4]
  simp

/-! ## C2: a malformed line permanently finishes the stream -/

/-- C2, evaluated against the code.  When the first newline-terminated
line fails to parse, `json.loads` raises inside the generator body of
`streamer`; by Python generator semantics the generator is then
permanently finished, so the stream yields no record at all — in
particular a well-formed line following the malformed one is never
produced, even though the `publisher` catches the exception and keeps
calling `next` (each later call merely raises `StopIteration`). -/
theorem malformed_line_kills_stream (parse : List Char → Option Record)
    (c1 c2 : List Char) (r : Record)
    (h1 : endsInNewline c1 = true)
    (hbad : parse c1 = none) (hgood : parse c2 = some r) :
    streamerOut parse [c1, c2] = [] := by
  unfold streamerOut
  simp only [streamer, List.nil_append, h1, if_true, hbad]

/-- Witness for the malformed-line behaviour on concrete chunks: the
first line fails `demoParse`, the second parses, and the stream yields
nothing. -/
theorem malformed_line_kills_stream_witness :
    demoParse ['b', 'a', 'd', newlineChar] = none ∧
    demoParse ['o', 'k', newlineChar] = some ⟨TSField.valid 0, some 1⟩ ∧
    streamerOut demoParse [['b', 'a', 'd', newlineChar], ['o', 'k', newlineChar]] = [] :=
  ⟨rfl, rfl,
    malformed_line_kills_stream demoParse ['b', 'a', 'd', newlineChar]
      ['o', 'k', newlineChar] ⟨TSField.valid 0, some 1⟩ (by decide) rfl rfl⟩

/-! ## C4: drift correction -/

/-- C4.  One schedule update (line 148) advances the previous target by
a whole multiple of `delay` — a positive one when the cycle-end clock is
at or past the previous target — and consequently every scheduled wake
instant is congruent to the initial one modulo `delay`. -/
theorem drift_correction (delay w0 : ℚ) (clock : ℕ → ℚ) (n : ℕ) (hd : 0 < delay)
    (hn : wakeSeq delay w0 clock n ≤ clock n) :
    (∃ k : ℤ, 0 < k ∧
      wakeSeq delay w0 clock (n + 1) = wakeSeq delay w0 clock n + k * delay) ∧
    (∀ m : ℕ, ∃ j : ℤ, wakeSeq delay w0 clock m = w0 + j * delay) := by
  constructor
  · refine ⟨⌊(clock n - wakeSeq delay w0 clock n) / delay⌋ + 1, ?_, ?_⟩
    · have hq : 0 ≤ (clock n - wakeSeq delay w0 clock n) / delay :=
        div_nonneg (sub_nonneg.mpr hn) hd.le
      have hfl : (0 : ℤ) ≤ ⌊(clock n - wakeSeq delay w0 clock n) / delay⌋ :=
        Int.floor_nonneg.mpr hq
      omega
    · show nextTimeUpdate delay (wakeSeq delay w0 clock n) (clock n) = _
      unfold nextTimeUpdate
      push_cast
      ring
  · intro m
    induction m with
    | zero =>
      refine ⟨0, ?_⟩
      show w0 = w0 + ((0 : ℤ) : ℚ) * delay
      push_cast
      ring
    | succ m ih =>
      obtain ⟨j, hj⟩ := ih
      refine ⟨j + (⌊(clock m - wakeSeq delay w0 clock m) / delay⌋ + 1), ?_⟩
      show nextTimeUpdate delay (wakeSeq delay w0 clock m) (clock m) = _
      unfold nextTimeUpdate
      rw [hj]
      push_cast
      ring

/-- Witness for C4 at delay 2, initial target 1, constant clock 5. -/
theorem drift_correction_witness :
    (0 : ℚ) < 2 ∧ wakeSeq 2 1 (fun _ => 5) 0 ≤ 5 ∧
    ((∃ k : ℤ, 0 < k ∧ wakeSeq 2 1 (fun _ => 5) 1 = wakeSeq 2 1 (fun _ => 5) 0 + k * 2) ∧
     (∀ m : ℕ, ∃ j : ℤ, wakeSeq 2 1 (fun _ => 5) m = 1 + j * 2)) :=
  ⟨by norm_num, by norm_num [wakeSeq],
    drift_correction 2 1 (fun _ => 5) 0 (by norm_num) (by norm_num [wakeSeq])⟩

/-! ## C5: no catch-up bursts -/

/-- C5.  After any cycle whose end-of-cycle clock `now` is at or past
the previous target, the recomputed target is strictly in the future and
at most one period away: overruns are absorbed by skipping whole
multiples of `delay` instead of firing a backlog of immediate cycles. -/
theorem no_catchup_bursts (delay wake now : ℚ) (hd : 0 < delay) (hw : wake ≤ now) :
    now < nextTimeUpdate delay wake now ∧ nextTimeUpdate delay wake now ≤ now + delay := by
  unfold nextTimeUpdate
  have h1 : (now - wake) / delay < ⌊(now - wake) / delay⌋ + 1 := Int.lt_floor_add_one _
  have h2 : (⌊(now - wake) / delay⌋ : ℚ) ≤ (now - wake) / delay := Int.floor_le _
  have h3 : now - wake < (↑⌊(now - wake) / delay⌋ + 1) * delay := (div_lt_iff₀ hd).mp h1
  have h4 : (⌊(now - wake) / delay⌋ : ℚ) * delay ≤ now - wake := (le_div_iff₀ hd).mp h2
  constructor
  · nlinarith
  · nlinarith

/-- Witness for C5 at delay 2, previous target 3, clock 8: the next
target lies in (8, 10]. -/
theorem no_catchup_bursts_witness :
    (0 : ℚ) < 2 ∧ (3 : ℚ) ≤ 8 ∧
    (8 < nextTimeUpdate 2 3 8 ∧ nextTimeUpdate 2 3 8 ≤ 8 + 2) :=
  ⟨by norm_num, by norm_num, no_catchup_bursts 2 3 8 (by norm_num) (by norm_num)⟩

/-! ## C8: the initial wake instant -/

/-- C8.  The first target is start + delay when delay is under a minute;
when delay is at least 60 seconds it is the unique whole-minute instant
(a multiple of 60) in the half-open interval (start + delay - 60,
start + delay], i.e. start + delay truncated down to the start of its
minute. -/
theorem initial_wake_time (s d : ℚ) :
    (d < 60 → initialNextTime s d = s + d) ∧
    (60 ≤ d → (∃ k : ℤ, initialNextTime s d = 60 * k) ∧
      s + d - 60 < initialNextTime s d ∧ initialNextTime s d ≤ s + d) := by
  unfold initialNextTime
  by_cases h : (60 : ℚ) ≤ d
  · rw [if_pos h]
    constructor
    · intro hlt
      linarith
    · intro _
      have h2 : (s + d) / 60 - 1 < (⌊(s + d) / 60⌋ : ℚ) := Int.sub_one_lt_floor _
      have h4 : (⌊(s + d) / 60⌋ : ℚ) ≤ (s + d) / 60 := Int.floor_le _
      have h3 : ((s + d) / 60) * 60 = s + d := by
        field_simp
      refine ⟨⟨⌊(s + d) / 60⌋, rfl⟩, ?_, ?_⟩
      · linarith
      · linarith
  · rw [if_neg h]
    constructor
    · intro _
      rfl
    · intro h2
      exact absurd h2 h

/-- Witness for C8 at a sub-minute delay (7) and a two-minute delay
(120). -/
theorem initial_wake_time_witness :
    ((7 : ℚ) < 60 ∧ initialNextTime 3 7 = 10) ∧
    ((60 : ℚ) ≤ 120 ∧ (∃ k : ℤ, initialNextTime 5 120 = 60 * k) ∧
      (5 : ℚ) + 120 - 60 < initialNextTime 5 120 ∧ initialNextTime 5 120 ≤ 5 + 120) := by
  constructor
  · refine ⟨by norm_num, ?_⟩
    rw [(initial_wake_time 3 7).1 (by norm_num)]
    norm_num
  · exact ⟨by norm_num, (initial_wake_time 5 120).2 (by norm_num)⟩

end UnbabelCli
